import Mathlib

/-!
Shallow embedding of the friend-relationship and live-location-sharing logic of
the El_gringo_fe repository.

Backend model (from backend/src/routes/friends.js and backend/src/routes/partners.js):
users and friendship records live in a JSON-file database; each route does a
read-modify-write of the whole dataset.  We model the dataset as a pair of lists
and each route handler as a pure function from (inputs, state) to (HTTP result,
new state).  JavaScript strings are modelled as Lean strings (identifiers in the
repository are UUIDs and plain text; JS sort() compares UTF-16 code units which
agrees with Lean's lexicographic Char order on such strings), timestamps
(Date.now()) as naturals supplied by the caller, and randomUUID() as an
identifier supplied by the caller.
-/

namespace ElGringo

/-- A user record, restricted to the fields the friends/partners routes read
(the publicUser projection of backend users; skill and location are nullable). -/
structure User where
  id : String
  email : String
  username : String
  fullName : String
  skill : Option String
  location : Option String
deriving DecidableEq, Repr

/-- A friendship record as pushed by the /friends/request route.  The status
field is the literal string stored in the JSON database ("pending" or
"accepted" for records the code itself creates). -/
structure Friendship where
  id : String
  key : String
  userAId : String
  userBId : String
  requesterId : String
  addresseeId : String
  status : String
  createdAt : Nat
  updatedAt : Nat
deriving DecidableEq, Repr

/-- The slice of the JSON database the friends and partners routes touch. -/
structure DB where
  users : List User
  friendships : List Friendship
deriving DecidableEq, Repr

/-- HTTP outcome of a route handler: res.status(...).json(...) calls.
ok and created carry the status string of the JSON body. -/
inductive ApiResult where
  | badRequest (message : String)
  | notFound (message : String)
  | forbidden (message : String)
  | ok (status : String)
  | created (status : String)
deriving DecidableEq, Repr

/-- Leading whitespace removal on a character list (helper for jsTrim). -/
def jsTrimLeft : List Char → List Char
  | [] => []
  | c :: rest => if c.isWhitespace then jsTrimLeft rest else c :: rest

/-- JS String.prototype.trim: strip whitespace from both ends.  (Lean's own
String.trim is equivalent on such strings but is defined by well-founded
recursion over byte positions, which the kernel cannot evaluate; the routes
use this structurally recursive version so that concrete runs reduce.) -/
def jsTrim (s : String) : String :=
  ⟨(jsTrimLeft (jsTrimLeft s.data).reverse).reverse⟩

/-- JS String.prototype.toLowerCase, character by character (same remark as
for jsTrim versus Lean's String.toLower). -/
def jsToLower (s : String) : String :=
  ⟨s.data.map Char.toLower⟩

/-- Lexicographic strict order on character lists, by character code
(JS default sort compares strings by code unit; identifiers in this
repository are within the basic plane, where code-unit and character
comparison agree.  Lean's own String order is the same lexicographic order
but is not kernel-computable, being defined through iterators). -/
def charListLt : List Char → List Char → Bool
  | _, [] => false
  | [], _ :: _ => true
  | a :: as, b :: bs => decide (a < b) || (a == b && charListLt as bs)

/-- Strict lexicographic order on strings. -/
def jsStrLt (a b : String) : Bool :=
  charListLt a.data b.data

/-- The two identifiers in JS sort() order: [a, b].slice().sort(). -/
def sortPair (a b : String) : String × String :=
  if jsStrLt b a then (b, a) else (a, b)

/-- friendshipKey from friends.js: [a, b].slice().sort().join("__"). -/
def friendshipKey (a b : String) : String :=
  (sortPair a b).1 ++ "__" ++ (sortPair a b).2

/-- The record pushed by the /friends/request route when no record with the
canonical key exists (id stands for the randomUUID(), now for Date.now()). -/
def newFriendship (myId targetId newId : String) (now : Nat) : Friendship :=
  { id := newId
  , key := friendshipKey myId targetId
  , userAId := (sortPair myId targetId).1
  , userBId := (sortPair myId targetId).2
  , requesterId := myId
  , addresseeId := targetId
  , status := "pending"
  , createdAt := now
  , updatedAt := now }

/-- In-place mutation of the record returned by friendships.find(f => f.key === key):
existing.status = "accepted"; existing.updatedAt = Date.now().  find returns the
first match, so the first record with the key is updated. -/
def setAcceptedFirst (key : String) (now : Nat) : List Friendship → List Friendship
  | [] => []
  | f :: rest =>
      if f.key == key then { f with status := "accepted", updatedAt := now } :: rest
      else f :: setAcceptedFirst key now rest

/-- POST /friends/request from friends.js.  myId is req.user.id, rawTargetId is
req.body.userId before String(...).trim(), newId the randomUUID() and now the
Date.now() of this request. -/
def requestRelationship (myId rawTargetId newId : String) (now : Nat) (db : DB) :
    ApiResult × DB :=
  let targetId := jsTrim rawTargetId
  if targetId == "" then (.badRequest "Missing userId", db)
  else if targetId == myId then (.badRequest "Cannot add yourself", db)
  else
    match db.users.find? (fun u => u.id == targetId) with
    | none => (.notFound "User not found", db)
    | some _ =>
      let key := friendshipKey myId targetId
      match db.friendships.find? (fun f => f.key == key) with
      | some existing =>
        if existing.status == "accepted" then (.ok "accepted", db)
        else if existing.status == "pending" then
          if existing.requesterId == myId then (.ok "pending", db)
          else (.ok "accepted",
                { db with friendships := setAcceptedFirst key now db.friendships })
        else
          (.created "pending",
           { db with friendships := db.friendships ++ [newFriendship myId targetId newId now] })
      | none =>
        (.created "pending",
         { db with friendships := db.friendships ++ [newFriendship myId targetId newId now] })

/-- POST /friends/accept from friends.js.  myId is req.user.id, rawFromUserId is
req.body.userId before String(...).trim(), now the Date.now() of this request. -/
def acceptRelationship (myId rawFromUserId : String) (now : Nat) (db : DB) :
    ApiResult × DB :=
  let fromUserId := jsTrim rawFromUserId
  if fromUserId == "" then (.badRequest "Missing userId", db)
  else
    let key := friendshipKey myId fromUserId
    match db.friendships.find? (fun f => f.key == key) with
    | none => (.notFound "Request not found", db)
    | some existing =>
      if existing.status != "pending" then (.notFound "Request not found", db)
      else if existing.addresseeId != myId then (.forbidden "Not allowed", db)
      else (.ok "accepted",
            { db with friendships := setAcceptedFirst key now db.friendships })

/-- A friendship record is a record of the unordered pair of users a and b
(the pair is stored in the userAId/userBId fields, in sorted order for
records the code creates). -/
def forPair (f : Friendship) (a b : String) : Bool :=
  (f.userAId == a && f.userBId == b) || (f.userAId == b && f.userBId == a)

/-- hasRelationship from partners.js. -/
def hasRelationship (friendships : List Friendship) (myId otherId : String) : Bool :=
  friendships.any fun f =>
    (f.userAId == myId && f.userBId == otherId) ||
    (f.userAId == otherId && f.userBId == myId) ||
    (f.requesterId == myId && f.addresseeId == otherId) ||
    (f.requesterId == otherId && f.addresseeId == myId)

/-- JS nullish coalescing to the empty string: String(x ?? ""). -/
def optStr : Option String → String
  | some s => s
  | none => ""

/-- Is needle a prefix of hay (on character lists)? -/
def listPrefixOf : List Char → List Char → Bool
  | [], _ => true
  | _ :: _, [] => false
  | a :: as, b :: bs => a == b && listPrefixOf as bs

/-- Does hay contain needle as a contiguous run (on character lists)? -/
def listContains (needle : List Char) : List Char → Bool
  | [] => needle.isEmpty
  | c :: rest => listPrefixOf needle (c :: rest) || listContains needle rest

/-- JS String.prototype.includes. -/
def jsIncludes (hay needle : String) : Bool :=
  listContains needle.data hay.data

/-- The haystack built for the free-text filter in partners.js:
the template literal username fullName email separated by spaces
(username, fullName and email are non-null on backend users). -/
def searchHay (u : User) : String :=
  u.username ++ " " ++ u.fullName ++ " " ++ u.email

/-- GET /partners/find-partner from partners.js.  myId is req.user.id; rawQ,
rawSkill, rawLocation are the query parameters before String(...).trim().toLowerCase().
The route finally maps publicUser over the result; our User type already is the
public projection, so the handler returns the user records themselves. -/
def findPartner (myId rawQ rawSkill rawLocation : String) (db : DB) : List User :=
  let q := jsToLower (jsTrim rawQ)
  let skill := jsToLower (jsTrim rawSkill)
  let location := jsToLower (jsTrim rawLocation)
  let users1 := db.users.filter (fun u => u.id != myId)
  let users2 := users1.filter (fun u => !hasRelationship db.friendships myId u.id)
  let users3 :=
    if q == "" then users2
    else users2.filter (fun u => jsIncludes (jsToLower (searchHay u)) q)
  let users4 :=
    if skill == "" then users3
    else users3.filter (fun u => jsIncludes (jsToLower (optStr u.skill)) skill)
  let users5 :=
    if location == "" then users4
    else users4.filter (fun u => jsIncludes (jsToLower (optStr u.location)) location)
  users5.take 50

/-- Modelled from the spec: the backend route implementing relationshipStatus
(GET /friends/status, called by the frontend chat pages) is not under src/;
spec section 4.2 defines relationshipStatus(userA, userB) as returning
none, pending or accepted for the pair, and section 4.1 defines the store
lookup find(u1, u2) by the canonical key. -/
def relationshipStatus (db : DB) (a b : String) : String :=
  match db.friendships.find? (fun f => f.key == friendshipKey a b) with
  | some f => f.status
  | none => "none"

/-- Well-formedness of the friendship store, as established by the code's own
writes: every record's key is the canonical key of its stored pair, statuses
are the two strings the state machine uses, and keys are unique (the /request
route only pushes a record after find by key came back empty). -/
def WellFormedStore (l : List Friendship) : Prop :=
  (∀ f ∈ l, f.key = friendshipKey f.userAId f.userBId) ∧
  (∀ f ∈ l, f.status = "pending" ∨ f.status = "accepted") ∧
  (l.map (fun f => f.key)).Nodup

/-- For requester myId, every friendship record whose key is the canonical key
of myId and some user also stores that pair (or that requester/addressee pair)
in its fields.  This rules out canonical-key collisions between differently
split identifier pairs (spec Open Question d); states the code itself builds
from collision-free identifiers such as UUIDs satisfy it. -/
def KeyFaithfulFor (db : DB) (myId : String) : Prop :=
  ∀ f ∈ db.friendships, ∀ u ∈ db.users,
    f.key = friendshipKey myId u.id →
      (f.userAId = myId ∧ f.userBId = u.id) ∨ (f.userAId = u.id ∧ f.userBId = myId) ∨
      (f.requesterId = myId ∧ f.addresseeId = u.id) ∨
      (f.requesterId = u.id ∧ f.addresseeId = myId)

/-!
Client-side model (from src/app/components/LivePlayersMap.tsx).

The sharing path of LivePlayersMap is single-threaded event-loop code over a
handful of refs.  We model it as a state machine driven by a list of timed
events: device fixes (the geolocation watch callback calling handlePosition),
throttle-timer callbacks (the setTimeout scheduled by scheduleFlush), and
completions of the in-flight PUT request (the end of the fetch in flushQueued,
where the try block runs lastSentAtRef.current = Date.now() only on success and
the finally block clears inFlightRef and immediately re-flushes any queued
payload).  JS numbers carried by fixes are modelled as rationals; times are
naturals (milliseconds).
-/

/-- The fields of a GeolocationPosition's coords object that handlePosition
reads; latitude and longitude are Option because the code guards
typeof lat !== "number". -/
structure GeoCoordsIn where
  latitude : Option ℚ
  longitude : Option ℚ
  accuracy : Option ℚ
  heading : Option ℚ
  speed : Option ℚ
deriving DecidableEq, Repr

/-- The DeviceFix local display state set by setDeviceFix. -/
structure DeviceFix where
  lat : ℚ
  lng : ℚ
  accuracy : Option ℚ
  atMs : Nat
deriving DecidableEq, Repr

/-- The JSON payload handed to sendLiveLocation (and eventually PUT). -/
structure Payload where
  lat : ℚ
  lng : ℚ
  accuracy : Option ℚ
  heading : Option ℚ
  speed : Option ℚ
deriving DecidableEq, Repr

/-- clamp from LivePlayersMap.tsx: Math.min(max, Math.max(min, n)). -/
def clamp (n lo hi : ℚ) : ℚ := min hi (max lo n)

/-- MAX_ACCEPTABLE_ACCURACY_M from LivePlayersMap.tsx. -/
def MAX_ACCEPTABLE_ACCURACY_M : ℚ := 1500

/-- handlePosition from LivePlayersMap.tsx, as a pure function from the
incoming coords and the current time to (the new deviceFix display state if
set, the payload handed to sendLiveLocation if any).  A rational accuracy is
always finite, so the Number.isFinite(accuracy) conjunct of the accuracy gate
is always true here. -/
def handlePosition (coords : GeoCoordsIn) (now : Nat) :
    Option DeviceFix × Option Payload :=
  match coords.latitude, coords.longitude with
  | some lat, some lng =>
      let accuracy := coords.accuracy
      let fix : DeviceFix :=
        { lat := clamp lat (-90) 90
        , lng := clamp lng (-180) 180
        , accuracy := accuracy
        , atMs := now }
      let payload : Payload :=
        { lat := fix.lat
        , lng := fix.lng
        , accuracy := fix.accuracy
        , heading := coords.heading
        , speed := coords.speed }
      match accuracy with
      | some a =>
          if a > MAX_ACCEPTABLE_ACCURACY_M then (some fix, none)
          else (some fix, some payload)
      | none => (some fix, some payload)
  | _, _ => (none, none)

/-- The refs of the sharing path, plus a log of issued network submissions
(time and payload of each PUT started by flushQueued). -/
structure MState where
  deviceFix : Option DeviceFix
  queuedPayload : Option Payload
  throttleTimer : Option Nat
  lastSentAt : Nat
  inFlight : Bool
  sent : List (Nat × Payload)
deriving DecidableEq, Repr

/-- Initial ref values on mount: lastSentAtRef.current = 0, everything else
empty. -/
def initState : MState :=
  { deviceFix := none, queuedPayload := none, throttleTimer := none
  , lastSentAt := 0, inFlight := false, sent := [] }

/-- The synchronous head of flushQueued (up to the point the fetch is started):
bail if a request is in flight, take and clear the queued payload, bail if
there was none, set inFlight and start the PUT (logged in sent at the current
time).  The asynchronous tail of flushQueued is the complete event below. -/
def flushQueued (now : Nat) (s : MState) : MState :=
  if s.inFlight then s
  else
    match s.queuedPayload with
    | none => { s with queuedPayload := none }
    | some p =>
        { s with queuedPayload := none, inFlight := true, sent := s.sent ++ [(now, p)] }

/-- scheduleFlush from LivePlayersMap.tsx: if no throttle timer is pending,
start one that fires after max(0, 1200 - (now - lastSentAt)) ms (stored as the
absolute fire time). -/
def scheduleFlush (now : Nat) (s : MState) : MState :=
  match s.throttleTimer with
  | some _ => s
  | none =>
      let elapsed := now - s.lastSentAt
      let delay := if elapsed < 1200 then 1200 - elapsed else 0
      { s with throttleTimer := some (now + delay) }

/-- The event-loop turns of the sharing path. -/
inductive Event where
  | fix (t : Nat) (coords : GeoCoordsIn)
  | timerFire (t : Nat)
  | complete (t : Nat) (ok : Bool)
deriving DecidableEq, Repr

/-- The timestamp of an event. -/
def Event.time : Event → Nat
  | .fix t _ => t
  | .timerFire t => t
  | .complete t _ => t

/-- One event-loop turn.
fix: handlePosition runs; if it produced a payload, sendLiveLocation stores it
in queuedPayloadRef and calls scheduleFlush.
timerFire: the throttle timeout callback clears throttleTimerRef and calls
flushQueued (a timer only fires if one is pending and due).
complete: the in-flight fetch finishes; on success the try block records
lastSentAt = Date.now(); the finally block clears inFlight and, if a payload
was queued meanwhile, immediately calls flushQueued again. -/
def step (s : MState) : Event → MState
  | .fix t coords =>
      let r := handlePosition coords t
      let s1 := match r.1 with
        | some f => { s with deviceFix := some f }
        | none => s
      match r.2 with
      | none => s1
      | some p => scheduleFlush t { s1 with queuedPayload := some p }
  | .timerFire t =>
      match s.throttleTimer with
      | some t0 =>
          if t0 ≤ t then flushQueued t { s with throttleTimer := none } else s
      | none => s
  | .complete t okFlag =>
      if s.inFlight then
        let ls := if okFlag then t else s.lastSentAt
        let s1 := { s with inFlight := false, lastSentAt := ls }
        match s1.queuedPayload with
        | some _ => flushQueued t s1
        | none => s1
      else s

/-- Run a trace of event-loop turns. -/
def run (s : MState) (es : List Event) : MState :=
  es.foldl step s

/-- A realizable trace of a sharing session: event times are nondecreasing and
completions only happen while a request is in flight (and, in this predicate,
complete successfully).  Device fixes may arrive at any moment, in particular
while a request is in flight. -/
def wfEvents (s : MState) (prev : Nat) : List Event → Bool
  | [] => true
  | e :: es =>
      decide (prev ≤ e.time) &&
      (match e with
       | .fix _ _ => true
       | .timerFire _ => true
       | .complete _ okFlag => s.inFlight && okFlag) &&
      wfEvents (step s e) e.time es

/-- A realizable trace in which, additionally, no device fix is processed while
a submission is in flight (every PUT settles before the next fix arrives). -/
def okEvents (s : MState) (prev : Nat) : List Event → Bool
  | [] => true
  | e :: es =>
      decide (prev ≤ e.time) &&
      (match e with
       | .fix _ _ => !s.inFlight
       | .timerFire _ => true
       | .complete _ okFlag => s.inFlight && okFlag) &&
      okEvents (step s e) e.time es

/-- Submission times at least 1200 ms apart, pairwise. -/
def SentGapped (l : List (Nat × Payload)) : Prop :=
  l.Pairwise fun a b => a.1 + 1200 ≤ b.1

/-- Inductive invariant of the sharing path over traces in okEvents, at a state
reached after events up to time tau: submissions are 1200 ms apart; submission
times and lastSentAt never exceed the clock; when no request is in flight every
logged submission has completed (its completion stamped lastSentAt); a pending
throttle timer is due no earlier than 1200 ms after lastSentAt and after every
logged submission; while a request is in flight no timer is pending and
nothing is queued. -/
def ThrottleInv (s : MState) (tau : Nat) : Prop :=
  SentGapped s.sent ∧
  (∀ q ∈ s.sent, q.1 ≤ tau) ∧
  s.lastSentAt ≤ tau ∧
  (s.inFlight = false → ∀ q ∈ s.sent, q.1 ≤ s.lastSentAt) ∧
  (∀ t0, s.throttleTimer = some t0 →
     s.lastSentAt + 1200 ≤ t0 ∧ ∀ q ∈ s.sent, q.1 + 1200 ≤ t0) ∧
  (s.inFlight = true → s.throttleTimer = none) ∧
  (s.inFlight = true → s.queuedPayload = none)

/-- Latitude and longitude of a payload are in range. -/
def PayloadInRange (p : Payload) : Prop :=
  -90 ≤ p.lat ∧ p.lat ≤ 90 ∧ -180 ≤ p.lng ∧ p.lng ≤ 180

/-- Latitude and longitude of a display fix are in range. -/
def FixInRange (f : DeviceFix) : Prop :=
  -90 ≤ f.lat ∧ f.lat ≤ 90 ∧ -180 ≤ f.lng ∧ f.lng ≤ 180

/-- All coordinate-carrying parts of the sharing state are in range: every
submitted payload, the queued payload, and the local display fix. -/
def RangeInv (s : MState) : Prop :=
  (∀ p ∈ s.sent, PayloadInRange p.2) ∧
  (∀ p, s.queuedPayload = some p → PayloadInRange p) ∧
  (∀ f, s.deviceFix = some f → FixInRange f)

/-- A precise device reading (accuracy 10 m). -/
def sampleCoords : GeoCoordsIn :=
  { latitude := some 1, longitude := some 2, accuracy := some 10
  , heading := none, speed := none }

/-- A burst of device fixes against fast (100 ms) PUT round-trips: after the
first throttled submission at t = 2000, each subsequent fix arrives while the
previous PUT is in flight and is drained the moment it completes. -/
def burstTrace : List Event :=
  [ .fix 2000 sampleCoords, .timerFire 2000
  , .fix 2100 sampleCoords, .complete 2100 true
  , .fix 2200 sampleCoords, .complete 2200 true
  , .fix 2300 sampleCoords, .complete 2300 true
  , .fix 2400 sampleCoords, .complete 2400 true
  , .fix 2500 sampleCoords, .complete 2500 true
  , .fix 2600 sampleCoords, .complete 2600 true
  , .fix 2700 sampleCoords, .complete 2700 true
  , .fix 2800 sampleCoords, .complete 2800 true
  , .fix 2900 sampleCoords, .complete 2900 true
  , .fix 3000 sampleCoords, .complete 3000 true ]

end ElGringo

/-! Lemmas about the canonical pair key and the store mutation helpers. -/

namespace ElGringo

lemma charListLt_asymm :
    ∀ as bs : List Char, charListLt as bs = true → charListLt bs as = false := by
  intro as
  induction as with
  | nil =>
      intro bs h
      cases bs with
      | nil => simp [charListLt] at h
      | cons b bs => simp [charListLt]
  | cons a as ih =>
      intro bs h
      cases bs with
      | nil => simp [charListLt] at h
      | cons b bs =>
          simp only [charListLt, Bool.or_eq_true, Bool.and_eq_true, decide_eq_true_eq,
            beq_iff_eq] at h
          rcases h with h | ⟨rfl, h2⟩
          · have h1 : ¬ b < a := lt_asymm h
            have h3 : (b == a) = false := by simp [ne_of_gt h]
            simp [charListLt, h1, h3]
          · have h1 : ¬ a < a := lt_irrefl a
            simp [charListLt, h1, ih bs h2]

lemma charListLt_conn :
    ∀ as bs : List Char, charListLt as bs = false → charListLt bs as = false → as = bs := by
  intro as
  induction as with
  | nil =>
      intro bs h _
      cases bs with
      | nil => rfl
      | cons b bs => simp [charListLt] at h
  | cons a as ih =>
      intro bs h h2
      cases bs with
      | nil => simp [charListLt] at h2
      | cons b bs =>
          simp only [charListLt, Bool.or_eq_false_iff, Bool.and_eq_false_iff,
            decide_eq_false_iff_not, beq_eq_false_iff_ne, ne_eq] at h h2
          obtain ⟨hab, hr⟩ := h
          obtain ⟨hba, hr2⟩ := h2
          have hEq : a = b := le_antisymm (le_of_not_lt hba) (le_of_not_lt hab)
          subst hEq
          rcases hr with h' | h'
          · exact absurd rfl h'
          · rcases hr2 with h'' | h''
            · exact absurd rfl h''
            · rw [ih bs h' h'']

lemma jsStrLt_asymm {a b : String} (h : jsStrLt a b = true) : jsStrLt b a = false :=
  charListLt_asymm a.data b.data h

lemma jsStrLt_conn {a b : String} (h : jsStrLt a b = false) (h2 : jsStrLt b a = false) :
    a = b := by
  cases a with
  | mk da =>
      cases b with
      | mk db =>
          have : da = db := charListLt_conn da db h h2
          rw [this]

lemma sortPair_snd_not_lt_fst (a b : String) :
    jsStrLt (sortPair a b).2 (sortPair a b).1 = false := by
  unfold sortPair
  cases h : jsStrLt b a with
  | true => simpa using jsStrLt_asymm h
  | false => simpa using h

lemma sortPair_comm (a b : String) : sortPair a b = sortPair b a := by
  unfold sortPair
  cases hba : jsStrLt b a with
  | true =>
      have : jsStrLt a b = false := jsStrLt_asymm hba
      simp [this]
  | false =>
      cases hab : jsStrLt a b with
      | true => simp
      | false =>
          have : b = a := jsStrLt_conn hba hab
          simp [this]

lemma sortPair_of_not_lt {a b : String} (h : jsStrLt b a = false) : sortPair a b = (a, b) := by
  unfold sortPair
  simp [h]

lemma friendshipKey_comm (a b : String) : friendshipKey a b = friendshipKey b a := by
  unfold friendshipKey
  rw [sortPair_comm]

lemma friendshipKey_sortPair (a b : String) :
    friendshipKey (sortPair a b).1 (sortPair a b).2 = friendshipKey a b := by
  unfold friendshipKey
  rw [sortPair_of_not_lt (sortPair_snd_not_lt_fst a b)]

lemma setAcceptedFirst_map_key (key : String) (now : Nat) (l : List Friendship) :
    (setAcceptedFirst key now l).map (fun f => f.key) = l.map (fun f => f.key) := by
  induction l with
  | nil => rfl
  | cons f rest ih =>
      unfold setAcceptedFirst
      split <;> simp [ih]

lemma setAcceptedFirst_append_left {key : String} {now : Nat} {l1 l2 : List Friendship}
    (h : ∀ f ∈ l1, (f.key == key) = false) :
    setAcceptedFirst key now (l1 ++ l2) = l1 ++ setAcceptedFirst key now l2 := by
  induction l1 with
  | nil => rfl
  | cons f rest ih =>
      have hf : (f.key == key) = false := h f (by simp)
      simp only [List.cons_append, setAcceptedFirst, hf]
      simp only [Bool.false_eq_true, if_false, List.append_eq]
      rw [ih (fun g hg => h g (by simp [hg]))]

lemma find?_setAcceptedFirst {key : String} {now : Nat} {l : List Friendship} {f : Friendship}
    (h : l.find? (fun g => g.key == key) = some f) :
    (setAcceptedFirst key now l).find? (fun g => g.key == key)
      = some { f with status := "accepted", updatedAt := now } := by
  induction l with
  | nil => simp at h
  | cons a rest ih =>
      by_cases ha : (a.key == key) = true
      · simp only [List.find?, ha] at h
        injection h with h
        subst h
        simp only [setAcceptedFirst, ha, if_true]
        simp [List.find?, ha]
      · have ha' : (a.key == key) = false := by
          cases hb : (a.key == key) with
          | true => exact absurd hb ha
          | false => rfl
        simp only [List.find?, ha'] at h
        simp only [setAcceptedFirst, ha']
        simp only [Bool.false_eq_true, if_false]
        simp only [List.find?, ha']
        exact ih h

lemma mem_setAcceptedFirst {key : String} {now : Nat} {l : List Friendship} {g : Friendship}
    (hg : g ∈ setAcceptedFirst key now l) :
    g ∈ l ∨ ∃ f ∈ l, g = { f with status := "accepted", updatedAt := now } := by
  induction l with
  | nil => simp [setAcceptedFirst] at hg
  | cons a rest ih =>
      simp only [setAcceptedFirst] at hg
      split at hg
      · rcases List.mem_cons.mp hg with h | h
        · exact Or.inr ⟨a, by simp, h⟩
        · exact Or.inl (List.mem_cons.mpr (Or.inr h))
      · rcases List.mem_cons.mp hg with h | h
        · exact Or.inl (by simp [h])
        · rcases ih h with h' | ⟨f, hf, hgf⟩
          · exact Or.inl (List.mem_cons.mpr (Or.inr h'))
          · exact Or.inr ⟨f, List.mem_cons.mpr (Or.inr hf), hgf⟩

lemma WellFormedStore_setAccepted {l : List Friendship} (key : String) (now : Nat)
    (h : WellFormedStore l) : WellFormedStore (setAcceptedFirst key now l) := by
  obtain ⟨hk, hs, hnd⟩ := h
  refine ⟨?_, ?_, ?_⟩
  · intro g hg
    rcases mem_setAcceptedFirst hg with hgl | ⟨f, hf, rfl⟩
    · exact hk g hgl
    · simpa using hk f hf
  · intro g hg
    rcases mem_setAcceptedFirst hg with hgl | ⟨f, hf, rfl⟩
    · exact hs g hgl
    · simp
  · rw [setAcceptedFirst_map_key]
    exact hnd

lemma WellFormedStore_push {l : List Friendship} {myId targetId newId : String} {now : Nat}
    (h : WellFormedStore l)
    (hfind : l.find? (fun f => f.key == friendshipKey myId targetId) = none) :
    WellFormedStore (l ++ [newFriendship myId targetId newId now]) := by
  obtain ⟨hk, hs, hnd⟩ := h
  have hnomem : ∀ f ∈ l, f.key ≠ friendshipKey myId targetId := by
    intro f hf
    have := List.find?_eq_none.mp hfind f hf
    simpa using this
  refine ⟨?_, ?_, ?_⟩
  · intro g hg
    rcases List.mem_append.mp hg with hgl | hgr
    · exact hk g hgl
    · have : g = newFriendship myId targetId newId now := by simpa using hgr
      subst this
      simp [newFriendship, friendshipKey_sortPair]
  · intro g hg
    rcases List.mem_append.mp hg with hgl | hgr
    · exact hs g hgl
    · have : g = newFriendship myId targetId newId now := by simpa using hgr
      subst this
      simp [newFriendship]
  · rw [List.map_append]
    rw [List.nodup_append]
    refine ⟨hnd, by simp, ?_⟩
    intro k hkmem hksing
    have hkval : k = friendshipKey myId targetId := by
      simpa [newFriendship] using hksing
    rcases List.mem_map.mp hkmem with ⟨f, hf, hfk⟩
    exact hnomem f hf (hfk.symm ▸ hkval ▸ rfl)

lemma nodup_const_length_le_one {α : Type} (l : List α) (c : α)
    (hnd : l.Nodup) (hc : ∀ x ∈ l, x = c) : l.length ≤ 1 := by
  match l with
  | [] => simp
  | [x] => simp
  | x :: y :: t =>
      exfalso
      have hx : x = c := hc x (by simp)
      have hy : y = c := hc y (by simp)
      have : x ∉ y :: t := (List.nodup_cons.mp hnd).1
      exact this (by simp [hx, hy])

lemma WellFormedStore_atMostOne {l : List Friendship} (h : WellFormedStore l)
    (x y : String) : (l.filter (fun f => forPair f x y)).length ≤ 1 := by
  obtain ⟨hk, _, hnd⟩ := h
  have hlen : (l.filter (fun f => forPair f x y)).length
      = ((l.filter (fun f => forPair f x y)).map (fun f => f.key)).length := by
    simp
  rw [hlen]
  apply nodup_const_length_le_one _ (friendshipKey x y)
  · exact ((List.filter_sublist l).map (fun f => f.key)).nodup hnd
  · intro k hkmem
    rcases List.mem_map.mp hkmem with ⟨f, hf, hfk⟩
    rcases List.mem_filter.mp hf with ⟨hfl, hfp⟩
    have hpair : (f.userAId = x ∧ f.userBId = y) ∨ (f.userAId = y ∧ f.userBId = x) := by
      simpa [forPair] using hfp
    rw [← hfk, hk f hfl]
    rcases hpair with ⟨h1, h2⟩ | ⟨h1, h2⟩
    · rw [h1, h2]
    · rw [h1, h2, friendshipKey_comm]

/-! Route-level unfolding lemmas. -/

lemma requestRelationship_unfold {db : DB} {A B : String} (newId : String) (now : Nat)
    (hBt : jsTrim B = B) (hB0 : B ≠ "") (hBA : B ≠ A) :
    requestRelationship A B newId now db
      = match db.users.find? (fun u => u.id == B) with
        | none => (.notFound "User not found", db)
        | some _ =>
          match db.friendships.find? (fun f => f.key == friendshipKey A B) with
          | some existing =>
            if existing.status == "accepted" then (.ok "accepted", db)
            else if existing.status == "pending" then
              if existing.requesterId == A then (.ok "pending", db)
              else (.ok "accepted",
                    { db with friendships :=
                        setAcceptedFirst (friendshipKey A B) now db.friendships })
            else
              (.created "pending",
               { db with friendships := db.friendships ++ [newFriendship A B newId now] })
          | none =>
            (.created "pending",
             { db with friendships := db.friendships ++ [newFriendship A B newId now] }) := by
  have h1 : (B == "") = false := by simp [hB0]
  have h2 : (B == A) = false := by simp [hBA]
  unfold requestRelationship
  rw [hBt]
  simp [h1, h2]

lemma requestRelationship_fresh {db : DB} {A B : String} (newId : String) (now : Nat)
    (hBt : jsTrim B = B) (hB0 : B ≠ "") (hBA : B ≠ A)
    (hBu : (db.users.find? (fun u => u.id == B)).isSome)
    (hNo : db.friendships.find? (fun f => f.key == friendshipKey A B) = none) :
    requestRelationship A B newId now db
      = (.created "pending",
         { db with friendships := db.friendships ++ [newFriendship A B newId now] }) := by
  obtain ⟨u, hu⟩ := Option.isSome_iff_exists.mp hBu
  rw [requestRelationship_unfold newId now hBt hB0 hBA, hu, hNo]

lemma acceptRelationship_unfold {db : DB} {myId B : String} (now : Nat)
    (hT : jsTrim B = B) (h0 : B ≠ "") :
    acceptRelationship myId B now db
      = match db.friendships.find? (fun f => f.key == friendshipKey myId B) with
        | none => (.notFound "Request not found", db)
        | some f =>
          if f.status != "pending" then (.notFound "Request not found", db)
          else if f.addresseeId != myId then (.forbidden "Not allowed", db)
          else (.ok "accepted",
                { db with friendships :=
                    setAcceptedFirst (friendshipKey myId B) now db.friendships }) := by
  have h1 : (B == "") = false := by simp [h0]
  unfold acceptRelationship
  rw [hT]
  simp [h1]

lemma find?_append_newFriendship {l : List Friendship} {A B newId : String} {t : Nat}
    (hNo : l.find? (fun f => f.key == friendshipKey A B) = none) :
    (l ++ [newFriendship A B newId t]).find? (fun f => f.key == friendshipKey A B)
      = some (newFriendship A B newId t) := by
  rw [List.find?_append, hNo]
  simp [List.find?, newFriendship]

lemma forPair_newFriendship (A B newId : String) (t : Nat) :
    forPair (newFriendship A B newId t) A B = true := by
  simp only [forPair, newFriendship]
  unfold sortPair
  split <;> simp

lemma requestRelationship_preserves_wf (db : DB) (myId rawT newId : String) (now : Nat)
    (h : WellFormedStore db.friendships) :
    WellFormedStore ((requestRelationship myId rawT newId now db).2).friendships := by
  simp only [requestRelationship]
  split
  · exact h
  · split
    · exact h
    · split
      · exact h
      · split
        · next existing hfind =>
          split
          · exact h
          · next hA =>
            split
            · split
              · exact h
              · exact WellFormedStore_setAccepted _ _ h
            · -- a found record whose status is neither accepted nor pending
              -- contradicts well-formedness of the store
              next hP =>
              exfalso
              have hmem := List.mem_of_find?_eq_some hfind
              rcases h.2.1 existing hmem with hp | ha
              · exact hP (by simp [hp])
              · exact hA (by simp [ha])
        · next hfind =>
          exact WellFormedStore_push h hfind

lemma acceptRelationship_preserves_wf (db : DB) (myId rawF : String) (now : Nat)
    (h : WellFormedStore db.friendships) :
    WellFormedStore ((acceptRelationship myId rawF now db).2).friendships := by
  simp only [acceptRelationship]
  split
  · exact h
  · split
    · exact h
    · split
      · exact h
      · split
        · exact h
        · exact WellFormedStore_setAccepted _ _ h

/-! Claim theorems for the friend-request state machine and relationship store. -/

/-- C6: for distinct users A and B where B exists and no relationship record
exists for the pair, requestRelationship(A,B) returns pending (201) and
afterwards exactly one record exists for the pair, with status pending,
requester A and addressee B. -/
theorem c6_fresh_request (db : DB) (A B newId : String) (t : Nat)
    (hBt : jsTrim B = B) (hB0 : B ≠ "") (hBA : B ≠ A)
    (hBu : (db.users.find? (fun u => u.id == B)).isSome)
    (hNoKey : db.friendships.find? (fun f => f.key == friendshipKey A B) = none)
    (hNoPair : ∀ f ∈ db.friendships, forPair f A B = false) :
    requestRelationship A B newId t db
      = (.created "pending",
         { db with friendships := db.friendships ++ [newFriendship A B newId t] }) ∧
    ((requestRelationship A B newId t db).2.friendships.filter (fun f => forPair f A B))
      = [newFriendship A B newId t] ∧
    (newFriendship A B newId t).status = "pending" ∧
    (newFriendship A B newId t).requesterId = A ∧
    (newFriendship A B newId t).addresseeId = B := by
  have heq := requestRelationship_fresh newId t hBt hB0 hBA hBu hNoKey
  refine ⟨heq, ?_, rfl, rfl, rfl⟩
  rw [heq]
  show (db.friendships ++ [newFriendship A B newId t]).filter (fun f => forPair f A B) = _
  rw [List.filter_append]
  have h1 : db.friendships.filter (fun f => forPair f A B) = [] := by
    rw [List.filter_eq_nil_iff]
    intro f hf
    simp [hNoPair f hf]
  rw [h1]
  simp [forPair_newFriendship]

/-- C6 witness at a concrete database. -/
theorem c6_fresh_request_witness :
    requestRelationship "a" "b" "f1" 7 ⟨[⟨"b", "b@x", "ub", "Ben", none, none⟩], []⟩
      = (.created "pending",
         ⟨[⟨"b", "b@x", "ub", "Ben", none, none⟩], [newFriendship "a" "b" "f1" 7]⟩) :=
  (c6_fresh_request ⟨[⟨"b", "b@x", "ub", "Ben", none, none⟩], []⟩ "a" "b" "f1" 7
    (by decide) (by decide) (by decide) (by decide) (by decide) (by decide)).1

/-- C1: when requestRelationship(A,B) has created a pending record,
requestRelationship(B,A) transitions that record to accepted, refreshes its
updatedAt, and returns accepted. -/
theorem c1_reciprocity_as_acceptance (db : DB) (A B id1 id2 : String) (t1 t2 : Nat)
    (hAB : A ≠ B) (hAt : jsTrim A = A) (hBt : jsTrim B = B) (hA0 : A ≠ "") (hB0 : B ≠ "")
    (hAu : (db.users.find? (fun u => u.id == A)).isSome)
    (hBu : (db.users.find? (fun u => u.id == B)).isSome)
    (hNo : db.friendships.find? (fun f => f.key == friendshipKey A B) = none) :
    (requestRelationship A B id1 t1 db).1 = .created "pending" ∧
    (requestRelationship B A id2 t2 (requestRelationship A B id1 t1 db).2).1
      = .ok "accepted" ∧
    ((requestRelationship B A id2 t2 (requestRelationship A B id1 t1 db).2).2.friendships.find?
        (fun f => f.key == friendshipKey A B)
      = some { newFriendship A B id1 t1 with status := "accepted", updatedAt := t2 }) := by
  have heq1 := requestRelationship_fresh id1 t1 hBt hB0 (Ne.symm hAB) hBu hNo
  obtain ⟨u, hu⟩ := Option.isSome_iff_exists.mp hAu
  have hfind : (db.friendships ++ [newFriendship A B id1 t1]).find?
      (fun f => f.key == friendshipKey A B) = some (newFriendship A B id1 t1) :=
    find?_append_newFriendship hNo
  have hfind' : (db.friendships ++ [newFriendship A B id1 t1]).find?
      (fun f => f.key == friendshipKey B A) = some (newFriendship A B id1 t1) := by
    rw [friendshipKey_comm B A]
    exact hfind
  have hreq : (newFriendship A B id1 t1).requesterId = A := rfl
  have hnotB : ((newFriendship A B id1 t1).requesterId == B) = false := by
    rw [hreq]
    simp [hAB]
  have heq2 : requestRelationship B A id2 t2 (requestRelationship A B id1 t1 db).2
      = (.ok "accepted",
         ⟨db.users,
          setAcceptedFirst (friendshipKey B A) t2
            (db.friendships ++ [newFriendship A B id1 t1])⟩) := by
    rw [heq1, requestRelationship_unfold id2 t2 hAt hA0 hAB]
    show (match (db.users.find? (fun u => u.id == A)) with
          | none => _
          | some _ => _) = _
    rw [hu]
    show (match (db.friendships ++ [newFriendship A B id1 t1]).find?
            (fun f => f.key == friendshipKey B A) with
          | some existing => _
          | none => _) = _
    rw [hfind']
    simp [newFriendship, hnotB]
    exact hAB
  refine ⟨by rw [heq1], by rw [heq2], ?_⟩
  rw [heq2]
  show (setAcceptedFirst (friendshipKey B A) t2
          (db.friendships ++ [newFriendship A B id1 t1])).find?
        (fun f => f.key == friendshipKey A B) = _
  rw [friendshipKey_comm B A]
  exact find?_setAcceptedFirst hfind

/-- C1 witness at a concrete database. -/
theorem c1_reciprocity_as_acceptance_witness :
    (requestRelationship "b" "a" "f2" 9
        (requestRelationship "a" "b" "f1" 7
          ⟨[⟨"a", "a@x", "ua", "Ann", none, none⟩,
            ⟨"b", "b@x", "ub", "Ben", none, none⟩], []⟩).2).1 = .ok "accepted" :=
  (c1_reciprocity_as_acceptance
    ⟨[⟨"a", "a@x", "ua", "Ann", none, none⟩, ⟨"b", "b@x", "ub", "Ben", none, none⟩], []⟩
    "a" "b" "f1" "f2" 7 9 (by decide) (by decide) (by decide) (by decide) (by decide)
    (by decide) (by decide) (by decide)).2.1

/-- C7: re-requesting while the record created by the first request is still
pending returns pending again and changes nothing; requesting when the pair's
record is already accepted returns accepted and changes nothing. -/
theorem c7_request_idempotent :
    (∀ (db : DB) (A B id1 id2 : String) (t1 t2 : Nat),
       jsTrim B = B → B ≠ "" → B ≠ A →
       (db.users.find? (fun u => u.id == B)).isSome →
       db.friendships.find? (fun f => f.key == friendshipKey A B) = none →
       requestRelationship A B id2 t2 (requestRelationship A B id1 t1 db).2
         = (.ok "pending", (requestRelationship A B id1 t1 db).2)) ∧
    (∀ (db : DB) (A B newId : String) (t : Nat) (f : Friendship),
       jsTrim B = B → B ≠ "" → B ≠ A →
       (db.users.find? (fun u => u.id == B)).isSome →
       db.friendships.find? (fun g => g.key == friendshipKey A B) = some f →
       f.status = "accepted" →
       requestRelationship A B newId t db = (.ok "accepted", db)) := by
  constructor
  · intro db A B id1 id2 t1 t2 hBt hB0 hBA hBu hNo
    have heq1 := requestRelationship_fresh id1 t1 hBt hB0 hBA hBu hNo
    obtain ⟨u, hu⟩ := Option.isSome_iff_exists.mp hBu
    have hfind : (db.friendships ++ [newFriendship A B id1 t1]).find?
        (fun f => f.key == friendshipKey A B) = some (newFriendship A B id1 t1) :=
      find?_append_newFriendship hNo
    rw [heq1, requestRelationship_unfold id2 t2 hBt hB0 hBA]
    show (match (db.users.find? (fun u => u.id == B)) with
          | none => _
          | some _ => _) = _
    rw [hu]
    show (match (db.friendships ++ [newFriendship A B id1 t1]).find?
            (fun f => f.key == friendshipKey A B) with
          | some existing => _
          | none => _) = _
    rw [hfind]
    simp [newFriendship]
  · intro db A B newId t f hBt hB0 hBA hBu hF hAcc
    obtain ⟨u, hu⟩ := Option.isSome_iff_exists.mp hBu
    rw [requestRelationship_unfold newId t hBt hB0 hBA]
    show (match (db.users.find? (fun u => u.id == B)) with
          | none => _
          | some _ => _) = _
    rw [hu]
    show (match (db.friendships.find? (fun g => g.key == friendshipKey A B)) with
          | some existing => _
          | none => _) = _
    rw [hF]
    simp [hAcc]

/-- C7 witness at a concrete database. -/
theorem c7_request_idempotent_witness :
    requestRelationship "a" "b" "f2" 9
        (requestRelationship "a" "b" "f1" 7 ⟨[⟨"b", "b@x", "ub", "Ben", none, none⟩], []⟩).2
      = (.ok "pending",
         (requestRelationship "a" "b" "f1" 7 ⟨[⟨"b", "b@x", "ub", "Ben", none, none⟩], []⟩).2) :=
  c7_request_idempotent.1 ⟨[⟨"b", "b@x", "ub", "Ben", none, none⟩], []⟩ "a" "b" "f1" "f2" 7 9
    (by decide) (by decide) (by decide) (by decide) (by decide)

/-- C9 (implicit): accepting when the pair's record is already accepted fails
with NotFound and leaves the database unchanged (the code treats a
non-pending record like a missing one). -/
theorem c9_accept_after_accepted (db : DB) (myId fromUser : String) (now : Nat) (f : Friendship)
    (hT : jsTrim fromUser = fromUser) (h0 : fromUser ≠ "")
    (hF : db.friendships.find? (fun g => g.key == friendshipKey myId fromUser) = some f)
    (hAcc : f.status = "accepted") :
    acceptRelationship myId fromUser now db = (.notFound "Request not found", db) := by
  rw [acceptRelationship_unfold now hT h0]
  show (match (db.friendships.find? (fun g => g.key == friendshipKey myId fromUser)) with
        | none => _
        | some f => _) = _
  rw [hF]
  simp [hAcc]

/-- C9 witness at a concrete database. -/
theorem c9_accept_after_accepted_witness :
    acceptRelationship "b" "a" 9
        ⟨[], [⟨"f1", "a__b", "a", "b", "a", "b", "accepted", 1, 2⟩]⟩
      = (.notFound "Request not found",
         ⟨[], [⟨"f1", "a__b", "a", "b", "a", "b", "accepted", 1, 2⟩]⟩) :=
  c9_accept_after_accepted ⟨[], [⟨"f1", "a__b", "a", "b", "a", "b", "accepted", 1, 2⟩]⟩
    "b" "a" 9 ⟨"f1", "a__b", "a", "b", "a", "b", "accepted", 1, 2⟩
    (by decide) (by decide) (by decide) (by decide)

/-- C2: acceptRelationship fails with NotFound when no pending record exists
between the two users, fails with Forbidden when the pending record's
addressee is not the caller, and otherwise sets the record to accepted,
updates its updatedAt, and returns accepted. -/
theorem c2_accept_error_handling (db : DB) (myId fromUser : String) (now : Nat)
    (hT : jsTrim fromUser = fromUser) (h0 : fromUser ≠ "") :
    ((∀ f ∈ db.friendships, f.key = friendshipKey myId fromUser → f.status ≠ "pending") →
       acceptRelationship myId fromUser now db = (.notFound "Request not found", db)) ∧
    (∀ f, db.friendships.find? (fun g => g.key == friendshipKey myId fromUser) = some f →
       f.status = "pending" →
       (f.addresseeId ≠ myId →
          acceptRelationship myId fromUser now db = (.forbidden "Not allowed", db)) ∧
       (f.addresseeId = myId →
          acceptRelationship myId fromUser now db
            = (.ok "accepted",
               { db with friendships :=
                   setAcceptedFirst (friendshipKey myId fromUser) now db.friendships }) ∧
          ((acceptRelationship myId fromUser now db).2.friendships.find?
              (fun g => g.key == friendshipKey myId fromUser)
            = some { f with status := "accepted", updatedAt := now }))) := by
  have hu := @acceptRelationship_unfold db myId fromUser now hT h0
  constructor
  · intro hnp
    rw [hu]
    cases hfind : db.friendships.find? (fun g => g.key == friendshipKey myId fromUser) with
    | none => rfl
    | some f =>
        have hmem := List.mem_of_find?_eq_some hfind
        have hkey : f.key = friendshipKey myId fromUser := by
          have := List.find?_some hfind
          simpa using this
        have hsp : (f.status != "pending") = true := by
          simp [hnp f hmem hkey]
        simp [hsp]
  · intro f hfind hp
    have h1 : (f.status != "pending") = false := by simp [hp]
    constructor
    · intro had
      have h2 : (f.addresseeId != myId) = true := by simp [had]
      rw [hu, hfind]
      simp [h1, h2]
    · intro had
      have h2 : (f.addresseeId != myId) = false := by simp [had]
      refine ⟨?_, ?_⟩
      · rw [hu, hfind]
        simp [h1, h2]
      · rw [hu, hfind]
        simp only [h1, h2, Bool.false_eq_true, if_false]
        exact find?_setAcceptedFirst hfind

/-- C2 witness at a concrete database (the NotFound case). -/
theorem c2_accept_error_handling_witness :
    acceptRelationship "b" "a" 3 ⟨[], []⟩ = (.notFound "Request not found", ⟨[], []⟩) :=
  (c2_accept_error_handling ⟨[], []⟩ "b" "a" 3 (by decide) (by decide)).1 (by decide)

/-- C5: the canonical key is symmetric, a well-formed store has at most one
record per unordered pair, and well-formedness (hence per-pair uniqueness) is
preserved by requestRelationship and acceptRelationship. -/
theorem c5_pair_uniqueness :
    (∀ a b, friendshipKey a b = friendshipKey b a) ∧
    (∀ l, WellFormedStore l →
       ∀ x y, (l.filter (fun f => forPair f x y)).length ≤ 1) ∧
    (∀ (db : DB) (myId rawT newId : String) (now : Nat), WellFormedStore db.friendships →
       WellFormedStore ((requestRelationship myId rawT newId now db).2).friendships) ∧
    (∀ (db : DB) (myId rawF : String) (now : Nat), WellFormedStore db.friendships →
       WellFormedStore ((acceptRelationship myId rawF now db).2).friendships) :=
  ⟨friendshipKey_comm,
   fun _ h => WellFormedStore_atMostOne h,
   fun db myId rawT newId now h => requestRelationship_preserves_wf db myId rawT newId now h,
   fun db myId rawF now h => acceptRelationship_preserves_wf db myId rawF now h⟩

lemma filter_ite_or {α : Type} (b : Bool) (p : α → Bool) (l : List α) :
    (if b then l else l.filter p) = l.filter (fun a => b || p a) := by
  cases b <;> simp

/-- C8: partner discovery starts from the full user set, excludes the
requester, excludes every user with an existing relationship record (hence,
on key-faithful states, every user whose relationshipStatus with the
requester is not none), applies the provided case-insensitive substring
filters conjunctively, and truncates to at most 50 entries preserving
encounter order (the result is a sublist of the user list). -/
theorem c8_partner_discovery (db : DB) (myId rawQ rawSkill rawLoc : String)
    (hkf : KeyFaithfulFor db myId) :
    (findPartner myId rawQ rawSkill rawLoc db).length ≤ 50 ∧
    List.Sublist (findPartner myId rawQ rawSkill rawLoc db) db.users ∧
    (∀ u ∈ findPartner myId rawQ rawSkill rawLoc db,
       u.id ≠ myId ∧ hasRelationship db.friendships myId u.id = false ∧
       relationshipStatus db myId u.id = "none") ∧
    findPartner myId rawQ rawSkill rawLoc db
      = (db.users.filter (fun u =>
           u.id != myId &&
           !hasRelationship db.friendships myId u.id &&
           (jsToLower (jsTrim rawQ) == "" ||
             jsIncludes (jsToLower (searchHay u)) (jsToLower (jsTrim rawQ))) &&
           (jsToLower (jsTrim rawSkill) == "" ||
             jsIncludes (jsToLower (optStr u.skill)) (jsToLower (jsTrim rawSkill))) &&
           (jsToLower (jsTrim rawLoc) == "" ||
             jsIncludes (jsToLower (optStr u.location)) (jsToLower (jsTrim rawLoc))))).take 50 := by
  have hchar : findPartner myId rawQ rawSkill rawLoc db
      = (db.users.filter (fun u =>
           u.id != myId &&
           !hasRelationship db.friendships myId u.id &&
           (jsToLower (jsTrim rawQ) == "" ||
             jsIncludes (jsToLower (searchHay u)) (jsToLower (jsTrim rawQ))) &&
           (jsToLower (jsTrim rawSkill) == "" ||
             jsIncludes (jsToLower (optStr u.skill)) (jsToLower (jsTrim rawSkill))) &&
           (jsToLower (jsTrim rawLoc) == "" ||
             jsIncludes (jsToLower (optStr u.location)) (jsToLower (jsTrim rawLoc))))).take 50 := by
    simp only [findPartner, filter_ite_or]
    simp only [List.filter_filter]
    refine congrArg (List.take 50) (List.filter_congr ?_)
    intro u _
    cases (jsToLower (jsTrim rawQ) == "") <;>
      cases (jsToLower (jsTrim rawSkill) == "") <;>
        cases (jsToLower (jsTrim rawLoc) == "") <;>
          cases (u.id != myId) <;>
            cases (hasRelationship db.friendships myId u.id) <;>
              cases (jsIncludes (jsToLower (searchHay u)) (jsToLower (jsTrim rawQ))) <;>
                cases (jsIncludes (jsToLower (optStr u.skill)) (jsToLower (jsTrim rawSkill))) <;>
                  cases (jsIncludes (jsToLower (optStr u.location)) (jsToLower (jsTrim rawLoc))) <;>
                    rfl
  refine ⟨?_, ?_, ?_, hchar⟩
  · rw [hchar]
    exact List.length_take_le _ _
  · rw [hchar]
    exact (List.take_sublist _ _).trans (List.filter_sublist _)
  · intro u hu
    rw [hchar] at hu
    have hu' := List.mem_of_mem_take hu
    rcases List.mem_filter.mp hu' with ⟨humem, hpred⟩
    have hid : u.id ≠ myId := by
      have := hpred
      simp only [Bool.and_eq_true, bne_iff_ne, ne_eq] at this
      exact this.1.1.1.1
    have hrel : hasRelationship db.friendships myId u.id = false := by
      have := hpred
      simp only [Bool.and_eq_true, Bool.not_eq_true'] at this
      exact this.1.1.1.2
    refine ⟨hid, hrel, ?_⟩
    unfold relationshipStatus
    cases hfind : db.friendships.find? (fun f => f.key == friendshipKey myId u.id) with
    | none => rfl
    | some f =>
        exfalso
        have hmem := List.mem_of_find?_eq_some hfind
        have hkey : f.key = friendshipKey myId u.id := by
          have := List.find?_some hfind
          simpa using this
        have h4 := hkf f hmem u humem hkey
        have : hasRelationship db.friendships myId u.id = true := by
          unfold hasRelationship
          rw [List.any_eq_true]
          refine ⟨f, hmem, ?_⟩
          rcases h4 with ⟨h1, h2⟩ | ⟨h1, h2⟩ | ⟨h1, h2⟩ | ⟨h1, h2⟩ <;> simp [h1, h2]
        rw [this] at hrel
        exact absurd hrel (by simp)

/-- C8 witness at a concrete database: one existing relationship excludes its
partner; the requester is excluded; the bound holds. -/
theorem c8_partner_discovery_witness :
    (findPartner "r" "" "pro" ""
      ⟨[⟨"r", "r@x", "ur", "Rae", none, none⟩,
        ⟨"a", "a@x", "ua", "Ann", some "Pro", some "Rome"⟩,
        ⟨"c", "c@x", "uc", "Cal", some "pro", none⟩],
       [⟨"f1", "c__r", "c", "r", "r", "c", "pending", 0, 0⟩]⟩).length ≤ 50 :=
  (c8_partner_discovery
    ⟨[⟨"r", "r@x", "ur", "Rae", none, none⟩,
      ⟨"a", "a@x", "ua", "Ann", some "Pro", some "Rome"⟩,
      ⟨"c", "c@x", "uc", "Cal", some "pro", none⟩],
     [⟨"f1", "c__r", "c", "r", "r", "c", "pending", 0, 0⟩]⟩
    "r" "" "pro" "" (by unfold KeyFaithfulFor; decide)).1

/-- C5 witness at a concrete database. -/
theorem c5_pair_uniqueness_witness :
    WellFormedStore
      ((requestRelationship "a" "b" "f1" 7
          ⟨[⟨"b", "b@x", "ub", "Ben", none, none⟩], []⟩).2).friendships :=
  c5_pair_uniqueness.2.2.1 ⟨[⟨"b", "b@x", "ub", "Ben", none, none⟩], []⟩ "a" "b" "f1" 7
    ⟨by simp, by simp, by simp⟩

/-! Lemmas about the live-location sharing path. -/

lemma clamp_le (n lo hi : ℚ) : clamp n lo hi ≤ hi :=
  min_le_left hi _

lemma le_clamp (n lo hi : ℚ) (h : lo ≤ hi) : lo ≤ clamp n lo hi :=
  le_min h (le_max_left lo n)

lemma scheduleFlush_queuedPayload (t : Nat) (s : MState) :
    (scheduleFlush t s).queuedPayload = s.queuedPayload := by
  obtain ⟨df, qp, tt, ls, fl, st⟩ := s
  cases tt <;> rfl

lemma scheduleFlush_sent (t : Nat) (s : MState) :
    (scheduleFlush t s).sent = s.sent := by
  obtain ⟨df, qp, tt, ls, fl, st⟩ := s
  cases tt <;> rfl

lemma scheduleFlush_deviceFix (t : Nat) (s : MState) :
    (scheduleFlush t s).deviceFix = s.deviceFix := by
  obtain ⟨df, qp, tt, ls, fl, st⟩ := s
  cases tt <;> rfl

lemma scheduleFlush_inFlight (t : Nat) (s : MState) :
    (scheduleFlush t s).inFlight = s.inFlight := by
  obtain ⟨df, qp, tt, ls, fl, st⟩ := s
  cases tt <;> rfl

lemma scheduleFlush_lastSentAt (t : Nat) (s : MState) :
    (scheduleFlush t s).lastSentAt = s.lastSentAt := by
  obtain ⟨df, qp, tt, ls, fl, st⟩ := s
  cases tt <;> rfl

lemma handlePosition_inRange (coords : GeoCoordsIn) (t : Nat) :
    (∀ f, (handlePosition coords t).1 = some f → FixInRange f) ∧
    (∀ p, (handlePosition coords t).2 = some p → PayloadInRange p) := by
  simp only [handlePosition]
  cases coords.latitude with
  | none => simp
  | some la =>
      cases coords.longitude with
      | none => simp
      | some lo =>
          have hb1 : (-90 : ℚ) ≤ clamp la (-90) 90 := le_clamp _ _ _ (by norm_num)
          have hb2 : clamp la (-90) 90 ≤ 90 := clamp_le _ _ _
          have hb3 : (-180 : ℚ) ≤ clamp lo (-180) 180 := le_clamp _ _ _ (by norm_num)
          have hb4 : clamp lo (-180) 180 ≤ 180 := clamp_le _ _ _
          cases coords.accuracy with
          | none =>
              constructor
              · intro f hf
                injection hf with hf
                subst hf
                exact ⟨hb1, hb2, hb3, hb4⟩
              · intro p hp
                injection hp with hp
                subst hp
                exact ⟨hb1, hb2, hb3, hb4⟩
          | some a =>
              by_cases hgt : a > MAX_ACCEPTABLE_ACCURACY_M
              · simp only [hgt, if_true]
                constructor
                · intro f hf
                  injection hf with hf
                  subst hf
                  exact ⟨hb1, hb2, hb3, hb4⟩
                · intro p hp
                  simp at hp
              · simp only [hgt, if_false]
                constructor
                · intro f hf
                  injection hf with hf
                  subst hf
                  exact ⟨hb1, hb2, hb3, hb4⟩
                · intro p hp
                  injection hp with hp
                  subst hp
                  exact ⟨hb1, hb2, hb3, hb4⟩

lemma flushQueued_rangeInv (t : Nat) (s : MState) (h : RangeInv s) :
    RangeInv (flushQueued t s) := by
  obtain ⟨hsent, hq, hdf⟩ := h
  obtain ⟨df, qp, tt, ls, fl, st⟩ := s
  simp only [flushQueued]
  cases fl with
  | true => exact ⟨hsent, hq, hdf⟩
  | false =>
      cases qp with
      | none =>
          refine ⟨hsent, ?_, hdf⟩
          intro p hp
          simp at hp
      | some p =>
          refine ⟨?_, ?_, hdf⟩
          · intro q hqm
            rcases List.mem_append.mp hqm with hm | hm
            · exact hsent q hm
            · have : q = (t, p) := by simpa using hm
              subst this
              exact hq p rfl
          · intro q hqp
            simp at hqp

lemma step_rangeInv (s : MState) (e : Event) (h : RangeInv s) : RangeInv (step s e) := by
  cases e with
  | fix t coords =>
      obtain ⟨hsent, hq, hdf⟩ := h
      have hp := handlePosition_inRange coords t
      simp only [step]
      cases h1 : (handlePosition coords t).1 with
      | none =>
          cases h2 : (handlePosition coords t).2 with
          | none => exact ⟨hsent, hq, hdf⟩
          | some p =>
              refine ⟨?_, ?_, ?_⟩
              · rw [scheduleFlush_sent]
                exact hsent
              · rw [scheduleFlush_queuedPayload]
                intro q hqp
                injection hqp with hqp
                subst hqp
                exact hp.2 _ h2
              · rw [scheduleFlush_deviceFix]
                exact hdf
      | some f =>
          cases h2 : (handlePosition coords t).2 with
          | none =>
              refine ⟨hsent, hq, ?_⟩
              intro g hg
              injection hg with hg
              subst hg
              exact hp.1 _ h1
          | some p =>
              refine ⟨?_, ?_, ?_⟩
              · rw [scheduleFlush_sent]
                exact hsent
              · rw [scheduleFlush_queuedPayload]
                intro q hqp
                injection hqp with hqp
                subst hqp
                exact hp.2 _ h2
              · rw [scheduleFlush_deviceFix]
                intro g hg
                injection hg with hg
                subst hg
                exact hp.1 _ h1
  | timerFire t =>
      simp only [step]
      cases htt : s.throttleTimer with
      | none => exact h
      | some t0 =>
          by_cases hle : t0 ≤ t
          · simp only [hle, if_true]
            apply flushQueued_rangeInv
            obtain ⟨hsent, hq, hdf⟩ := h
            exact ⟨hsent, hq, hdf⟩
          · simp only [hle, if_false]
            exact h
  | complete t okFlag =>
      obtain ⟨hsent, hq, hdf⟩ := h
      simp only [step]
      cases hfl : s.inFlight with
      | false => exact ⟨hsent, hq, hdf⟩
      | true =>
          rw [if_pos rfl]
          cases hqp : s.queuedPayload with
          | none =>
              refine ⟨hsent, ?_, hdf⟩
              intro p hp
              simp at hp
          | some p =>
              apply flushQueued_rangeInv
              refine ⟨hsent, ?_, hdf⟩
              intro q hq'
              injection hq' with hq'
              subst hq'
              exact hq _ hqp

lemma run_rangeInv (es : List Event) : ∀ s : MState, RangeInv s → RangeInv (run s es) := by
  induction es with
  | nil => intro s h; exact h
  | cons e rest ih =>
      intro s h
      exact ih (step s e) (step_rangeInv s e h)

/-- C4: a fix whose accuracy exceeds 1500 m produces no payload and is never
queued (sent log, queued payload and throttle timer are untouched) though the
local display state is still updated with the clamped fix; a fix with accuracy
within the threshold produces a payload which is queued for transmission. -/
theorem c4_accuracy_gate :
    (∀ (coords : GeoCoordsIn) (t : Nat) (a : ℚ),
       coords.accuracy = some a → a > MAX_ACCEPTABLE_ACCURACY_M →
       (handlePosition coords t).2 = none ∧
       (∀ s : MState,
          (step s (.fix t coords)).sent = s.sent ∧
          (step s (.fix t coords)).queuedPayload = s.queuedPayload ∧
          (step s (.fix t coords)).throttleTimer = s.throttleTimer) ∧
       (∀ la lo : ℚ, coords.latitude = some la → coords.longitude = some lo →
          (handlePosition coords t).1
            = some { lat := clamp la (-90) 90, lng := clamp lo (-180) 180,
                     accuracy := coords.accuracy, atMs := t } ∧
          ∀ s : MState, (step s (.fix t coords)).deviceFix = (handlePosition coords t).1)) ∧
    (∀ (coords : GeoCoordsIn) (t : Nat) (la lo a : ℚ),
       coords.latitude = some la → coords.longitude = some lo →
       coords.accuracy = some a → a ≤ MAX_ACCEPTABLE_ACCURACY_M →
       (handlePosition coords t).2
         = some { lat := clamp la (-90) 90, lng := clamp lo (-180) 180,
                  accuracy := some a, heading := coords.heading, speed := coords.speed } ∧
       ∀ s : MState,
         (step s (.fix t coords)).queuedPayload = (handlePosition coords t).2) := by
  constructor
  · intro coords t a hacc hgt
    have h2 : (handlePosition coords t).2 = none := by
      simp only [handlePosition, hacc]
      cases coords.latitude with
      | none => rfl
      | some la =>
          cases coords.longitude with
          | none => rfl
          | some lo => simp [hgt]
    refine ⟨h2, ?_, ?_⟩
    · intro s
      simp only [step, h2]
      cases h1 : (handlePosition coords t).1 with
      | none => exact ⟨rfl, rfl, rfl⟩
      | some f => exact ⟨rfl, rfl, rfl⟩
    · intro la lo hla hlo
      have h1 : (handlePosition coords t).1
          = some { lat := clamp la (-90) 90, lng := clamp lo (-180) 180,
                   accuracy := coords.accuracy, atMs := t } := by
        simp only [handlePosition, hla, hlo, hacc]
        simp [hgt, hacc]
      refine ⟨h1, ?_⟩
      intro s
      simp only [step, h2, h1]
  · intro coords t la lo a hla hlo hacc hle
    have hngt : ¬ a > MAX_ACCEPTABLE_ACCURACY_M := not_lt.mpr hle
    have h2 : (handlePosition coords t).2
        = some { lat := clamp la (-90) 90, lng := clamp lo (-180) 180,
                 accuracy := some a, heading := coords.heading, speed := coords.speed } := by
      simp only [handlePosition, hla, hlo, hacc]
      simp [hngt]
    refine ⟨h2, ?_⟩
    intro s
    simp only [step, h2]
    cases h1 : (handlePosition coords t).1 with
    | none => rw [scheduleFlush_queuedPayload]
    | some f => rw [scheduleFlush_queuedPayload]

/-- C4 witness at concrete fixes (accuracy 2000 m rejected, 10 m transmitted). -/
theorem c4_accuracy_gate_witness :
    (handlePosition ⟨some 1, some 2, some 2000, none, none⟩ 5).2 = none ∧
    (handlePosition ⟨some 1, some 2, some 10, none, none⟩ 5).2
      = some { lat := clamp 1 (-90) 90, lng := clamp 2 (-180) 180,
               accuracy := some 10, heading := none, speed := none } :=
  ⟨(c4_accuracy_gate.1 ⟨some 1, some 2, some 2000, none, none⟩ 5 2000 rfl (by decide)).1,
   (c4_accuracy_gate.2 ⟨some 1, some 2, some 10, none, none⟩ 5 1 2 10 rfl rfl rfl
     (by decide)).1⟩

/-- C10: handlePosition clamps coordinates into range for both the local
display fix and the transmission payload, and consequently along any event
trace every issued submission, the queued payload, and the display fix carry
in-range coordinates. -/
theorem c10_clamp :
    (∀ (coords : GeoCoordsIn) (t : Nat),
       (∀ f, (handlePosition coords t).1 = some f → FixInRange f) ∧
       (∀ p, (handlePosition coords t).2 = some p → PayloadInRange p)) ∧
    (∀ es : List Event,
       (∀ p ∈ (run initState es).sent, PayloadInRange p.2) ∧
       (∀ p, (run initState es).queuedPayload = some p → PayloadInRange p) ∧
       (∀ f, (run initState es).deviceFix = some f → FixInRange f)) := by
  constructor
  · exact handlePosition_inRange
  · intro es
    exact run_rangeInv es initState
      ⟨fun p hp => by simp [initState] at hp,
       fun p hp => by simp [initState] at hp,
       fun f hf => by simp [initState] at hf⟩

/-- C10 witness: an out-of-range latitude (95) is clamped and the resulting
payload is in range. -/
theorem c10_clamp_witness :
    PayloadInRange
      { lat := clamp 95 (-90) 90, lng := clamp 0 (-180) 180,
        accuracy := some 10, heading := none, speed := none } :=
  (c10_clamp.1 ⟨some 95, some 0, some 10, none, none⟩ 5).2 _ rfl

/-! Throttle invariant preservation. -/

lemma ThrottleInv.mk' {s : MState} {tau : Nat}
    (h1 : SentGapped s.sent)
    (h2 : ∀ q ∈ s.sent, q.1 ≤ tau)
    (h3 : s.lastSentAt ≤ tau)
    (h4 : s.inFlight = false → ∀ q ∈ s.sent, q.1 ≤ s.lastSentAt)
    (h5 : ∀ t0, s.throttleTimer = some t0 →
        s.lastSentAt + 1200 ≤ t0 ∧ ∀ q ∈ s.sent, q.1 + 1200 ≤ t0)
    (h6 : s.inFlight = true → s.throttleTimer = none)
    (h7 : s.inFlight = true → s.queuedPayload = none) :
    ThrottleInv s tau :=
  ⟨h1, h2, h3, h4, h5, h6, h7⟩

lemma scheduleFlush_throttleInvAux (df : Option DeviceFix) (qp : Option Payload)
    (tt : Option Nat) (ls : Nat) (st : List (Nat × Payload)) (tau t : Nat)
    (hgap : SentGapped st)
    (hsentle : ∀ q ∈ st, q.1 ≤ tau)
    (hlsle : ls ≤ tau)
    (hsentls : ∀ q ∈ st, q.1 ≤ ls)
    (htimer : ∀ t0, tt = some t0 → ls + 1200 ≤ t0 ∧ ∀ q ∈ st, q.1 + 1200 ≤ t0)
    (ht : tau ≤ t) :
    ThrottleInv (scheduleFlush t ⟨df, qp, tt, ls, false, st⟩) t := by
  cases tt with
  | some t0 =>
      simp only [scheduleFlush]
      refine ThrottleInv.mk' ?_ ?_ ?_ ?_ ?_ ?_ ?_ <;> dsimp only
      · exact hgap
      · exact fun q hq => le_trans (hsentle q hq) ht
      · exact le_trans hlsle ht
      · exact fun _ => hsentls
      · exact htimer
      · exact fun hf => nomatch hf
      · exact fun hf => nomatch hf
  | none =>
      simp only [scheduleFlush]
      refine ThrottleInv.mk' ?_ ?_ ?_ ?_ ?_ ?_ ?_ <;> dsimp only
      · exact hgap
      · exact fun q hq => le_trans (hsentle q hq) ht
      · exact le_trans hlsle ht
      · exact fun _ => hsentls
      · intro t1 h1
        injection h1 with h1
        have hls : ls ≤ t := le_trans hlsle ht
        subst h1
        by_cases hc : t - ls < 1200
        · rw [if_pos hc]
          exact ⟨by omega, fun q hq => by have := hsentls q hq; omega⟩
        · rw [if_neg hc]
          exact ⟨by omega, fun q hq => by have := hsentls q hq; omega⟩
      · exact fun hf => nomatch hf
      · exact fun hf => nomatch hf

lemma fix_throttleInv (s : MState) (tau t : Nat) (coords : GeoCoordsIn)
    (h : ThrottleInv s tau) (hfl : s.inFlight = false) (ht : tau ≤ t) :
    ThrottleInv (step s (.fix t coords)) t := by
  obtain ⟨hgap, hsentle, hlsle, hsentls, htimer, hift, hifq⟩ := h
  obtain ⟨df, qp, tt, ls, fl, st⟩ := s
  dsimp only at hgap hsentle hlsle hsentls htimer hift hifq hfl
  subst hfl
  simp only [step]
  cases (handlePosition coords t).1 with
  | none =>
      cases (handlePosition coords t).2 with
      | none =>
          refine ThrottleInv.mk' ?_ ?_ ?_ ?_ ?_ ?_ ?_ <;> dsimp only
          · exact hgap
          · exact fun q hq => le_trans (hsentle q hq) ht
          · exact le_trans hlsle ht
          · exact fun _ => hsentls rfl
          · exact htimer
          · exact fun hf => nomatch hf
          · exact fun hf => nomatch hf
      | some p =>
          exact scheduleFlush_throttleInvAux df (some p) tt ls st tau t
            hgap hsentle hlsle (hsentls rfl) htimer ht
  | some f =>
      cases (handlePosition coords t).2 with
      | none =>
          refine ThrottleInv.mk' ?_ ?_ ?_ ?_ ?_ ?_ ?_ <;> dsimp only
          · exact hgap
          · exact fun q hq => le_trans (hsentle q hq) ht
          · exact le_trans hlsle ht
          · exact fun _ => hsentls rfl
          · exact htimer
          · exact fun hf => nomatch hf
          · exact fun hf => nomatch hf
      | some p =>
          exact scheduleFlush_throttleInvAux (some f) (some p) tt ls st tau t
            hgap hsentle hlsle (hsentls rfl) htimer ht

lemma timerFire_throttleInv (s : MState) (tau t : Nat)
    (h : ThrottleInv s tau) (ht : tau ≤ t) :
    ThrottleInv (step s (.timerFire t)) t := by
  obtain ⟨hgap, hsentle, hlsle, hsentls, htimer, hift, hifq⟩ := h
  obtain ⟨df, qp, tt, ls, fl, st⟩ := s
  dsimp only at hgap hsentle hlsle hsentls htimer hift hifq
  simp only [step]
  cases tt with
  | none =>
      refine ThrottleInv.mk' ?_ ?_ ?_ ?_ ?_ ?_ ?_ <;> dsimp only
      · exact hgap
      · exact fun q hq => le_trans (hsentle q hq) ht
      · exact le_trans hlsle ht
      · exact hsentls
      · exact fun t1 h1 => nomatch h1
      · exact hift
      · exact hifq
  | some t0 =>
      dsimp only
      by_cases hle : t0 ≤ t
      · rw [if_pos hle]
        cases fl with
        | true => exact absurd (hift rfl) (by simp)
        | false =>
            simp only [flushQueued]
            cases qp with
            | none =>
                refine ThrottleInv.mk' ?_ ?_ ?_ ?_ ?_ ?_ ?_ <;> dsimp only
                · exact hgap
                · exact fun q hq => le_trans (hsentle q hq) ht
                · exact le_trans hlsle ht
                · exact fun _ => hsentls rfl
                · exact fun t1 h1 => nomatch h1
                · exact fun _ => rfl
                · exact fun _ => rfl
            | some p =>
                refine ThrottleInv.mk' ?_ ?_ ?_ ?_ ?_ ?_ ?_ <;> dsimp only
                · show (st ++ [(t, p)]).Pairwise fun a b => a.1 + 1200 ≤ b.1
                  refine List.pairwise_append.mpr ⟨hgap, List.pairwise_singleton _ _, ?_⟩
                  intro a ha b hb
                  have hb' : b = (t, p) := by simpa using hb
                  subst hb'
                  exact le_trans ((htimer t0 rfl).2 a ha) hle
                · intro q hq
                  rcases List.mem_append.mp hq with hm | hm
                  · exact le_trans (hsentle q hm) ht
                  · have hq' : q = (t, p) := by simpa using hm
                    subst hq'
                    exact le_refl t
                · exact le_trans hlsle ht
                · exact fun hf => nomatch hf
                · exact fun t1 h1 => nomatch h1
                · exact fun _ => rfl
                · exact fun _ => rfl
      · rw [if_neg hle]
        refine ThrottleInv.mk' ?_ ?_ ?_ ?_ ?_ ?_ ?_ <;> dsimp only
        · exact hgap
        · exact fun q hq => le_trans (hsentle q hq) ht
        · exact le_trans hlsle ht
        · exact hsentls
        · exact htimer
        · exact hift
        · exact hifq

lemma complete_throttleInv (s : MState) (tau t : Nat) (okFlag : Bool)
    (h : ThrottleInv s tau) (hfl : s.inFlight = true) (hok : okFlag = true) (ht : tau ≤ t) :
    ThrottleInv (step s (.complete t okFlag)) t := by
  obtain ⟨hgap, hsentle, hlsle, hsentls, htimer, hift, hifq⟩ := h
  obtain ⟨df, qp, tt, ls, fl, st⟩ := s
  dsimp only at hgap hsentle hlsle hsentls htimer hift hifq hfl
  subst hfl hok
  have hqp : qp = none := hifq rfl
  have htt : tt = none := hift rfl
  subst hqp htt
  have hstep : step ⟨df, none, none, ls, true, st⟩ (.complete t true)
      = ⟨df, none, none, t, false, st⟩ := rfl
  rw [hstep]
  refine ThrottleInv.mk' ?_ ?_ ?_ ?_ ?_ ?_ ?_ <;> dsimp only
  · exact hgap
  · exact fun q hq => le_trans (hsentle q hq) ht
  · exact le_refl t
  · exact fun _ q hq => le_trans (hsentle q hq) ht
  · exact fun t1 h1 => nomatch h1
  · exact fun hf => nomatch hf
  · exact fun _ => rfl

lemma throttleInv_init : ThrottleInv initState 0 :=
  ThrottleInv.mk' List.Pairwise.nil (fun _ hq => nomatch hq) (le_refl 0)
    (fun _ _ hq => nomatch hq) (fun _ h0 => nomatch h0)
    (fun hf => nomatch hf) (fun hf => nomatch hf)

lemma okEvents_throttleInv :
    ∀ (es : List Event) (s : MState) (tau : Nat),
      ThrottleInv s tau → okEvents s tau es = true →
      SentGapped ((run s es).sent) := by
  intro es
  induction es with
  | nil =>
      intro s tau h _
      exact h.1
  | cons e rest ih =>
      intro s tau h hok
      show SentGapped ((run (step s e) rest).sent)
      cases e with
      | fix t coords =>
          simp only [okEvents, Event.time, Bool.and_eq_true, decide_eq_true_eq,
            Bool.not_eq_true'] at hok
          exact ih (step s (.fix t coords)) t
            (fix_throttleInv s tau t coords h hok.1.2 hok.1.1) hok.2
      | timerFire t =>
          simp only [okEvents, Event.time, Bool.and_eq_true, decide_eq_true_eq,
            Bool.and_true] at hok
          exact ih (step s (.timerFire t)) t
            (timerFire_throttleInv s tau t h hok.1) hok.2
      | complete t okFlag =>
          simp only [okEvents, Event.time, Bool.and_eq_true, decide_eq_true_eq] at hok
          exact ih (step s (.complete t okFlag)) t
            (complete_throttleInv s tau t okFlag h hok.1.2.1 hok.1.2.2 hok.1.1) hok.2

lemma pairwise_gap_len (l : List (Nat × Payload)) :
    ∀ lo hi : Nat, l.Pairwise (fun a b => a.1 + 1200 ≤ b.1) →
      (∀ p ∈ l, lo ≤ p.1 ∧ p.1 ≤ hi) →
      lo + 1200 * (l.length - 1) ≤ hi ∨ l.length ≤ 1 := by
  induction l with
  | nil =>
      intro lo hi _ _
      right
      simp
  | cons a rest ih =>
      intro lo hi hpw hb
      cases rest with
      | nil =>
          right
          simp
      | cons b rest2 =>
          left
          have hpw' := List.pairwise_cons.mp hpw
          have hbnd : ∀ p ∈ b :: rest2, lo + 1200 ≤ p.1 ∧ p.1 ≤ hi := by
            intro p hp
            have h1 := (hb a (by simp)).1
            have h2 := hpw'.1 p hp
            have h3 := (hb p (List.mem_cons_of_mem a hp)).2
            exact ⟨by omega, h3⟩
          rcases ih (lo + 1200) hi hpw'.2 hbnd with h | h
          · have hlen : (b :: rest2).length = rest2.length + 1 := by simp
            have hlen2 : (a :: b :: rest2).length = rest2.length + 2 := by simp
            omega
          · have hlen : (b :: rest2).length = rest2.length + 1 := by simp
            have hr2 : rest2.length = 0 := by omega
            have hb2 := hbnd b (by simp)
            have hlen2 : (a :: b :: rest2).length = rest2.length + 2 := by simp
            omega

lemma window_bound {l : List (Nat × Payload)}
    (hpw : l.Pairwise (fun a b => a.1 + 1200 ≤ b.1)) (w : Nat) :
    (l.filter (fun p => decide (w ≤ p.1 ∧ p.1 ≤ w + 10000))).length ≤ 10 := by
  have hsub := List.filter_sublist (p := fun p => decide (w ≤ p.1 ∧ p.1 ≤ w + 10000)) l
  have hpw' := hpw.sublist hsub
  have hbnd : ∀ p ∈ l.filter (fun p => decide (w ≤ p.1 ∧ p.1 ≤ w + 10000)),
      w ≤ p.1 ∧ p.1 ≤ w + 10000 := by
    intro p hp
    have := (List.mem_filter.mp hp).2
    simpa using this
  rcases pairwise_gap_len _ w (w + 10000) hpw' hbnd with h | h
  · omega
  · omega

/-- C3 (amended): provided every submission completes successfully and no
device fix is processed while a submission is in flight, any two submissions
are at least 1200 ms apart (pairwise, hence also successively), and any
10-second window contains at most 10 submissions. -/
theorem c3_throttle_amended (es : List Event)
    (hok : okEvents initState 0 es = true) :
    SentGapped ((run initState es).sent) ∧
    List.Chain' (fun a b : Nat × Payload => a.1 + 1200 ≤ b.1) ((run initState es).sent) ∧
    ∀ w : Nat,
      (((run initState es).sent).filter
          (fun p => decide (w ≤ p.1 ∧ p.1 ≤ w + 10000))).length ≤ 10 := by
  have hgap := okEvents_throttleInv es initState 0 throttleInv_init hok
  exact ⟨hgap, hgap.chain', fun w => window_bound hgap w⟩

/-- C3 amended witness: a concrete session with two fixes, each submitted and
completed before the next fix. -/
theorem c3_throttle_amended_witness :
    okEvents initState 0
      [.fix 2000 sampleCoords, .timerFire 2000, .complete 2500 true,
       .fix 4000 sampleCoords, .timerFire 4000, .complete 4100 true] = true ∧
    SentGapped ((run initState
      [.fix 2000 sampleCoords, .timerFire 2000, .complete 2500 true,
       .fix 4000 sampleCoords, .timerFire 4000, .complete 4100 true]).sent) ∧
    (((run initState
      [.fix 2000 sampleCoords, .timerFire 2000, .complete 2500 true,
       .fix 4000 sampleCoords, .timerFire 4000, .complete 4100 true]).sent).filter
        (fun p => decide (0 ≤ p.1 ∧ p.1 ≤ 0 + 10000))).length ≤ 10 :=
  ⟨by decide,
   (c3_throttle_amended _ (by decide)).1,
   (c3_throttle_amended _ (by decide)).2.2 0⟩

/-- C3 counterexample: a realizable trace (fixes may arrive while a PUT is in
flight; every PUT succeeds) on which the throttle claim as stated fails: the
drain in flushQueued's finally block issues a submission immediately on each
completion, so consecutive submissions are only 100 ms apart and an
11th submission falls inside a single 10-second window. -/
theorem c3_throttle_counterexample :
    wfEvents initState 0 burstTrace = true ∧
    ¬ List.Chain' (fun a b : Nat × Payload => a.1 + 1200 ≤ b.1)
        ((run initState burstTrace).sent) ∧
    (((run initState burstTrace).sent).filter
        (fun p => decide (2000 ≤ p.1 ∧ p.1 ≤ 2000 + 10000))).length = 11 := by
  refine ⟨by decide, ?_, by decide⟩
  intro hchain
  have : ((run initState burstTrace).sent.map Prod.fst).Chain'
      (fun a b : Nat => a + 1200 ≤ b) := by
    rw [List.chain'_map]
    exact hchain
  rw [show (run initState burstTrace).sent.map Prod.fst
      = [2000, 2100, 2200, 2300, 2400, 2500, 2600, 2700, 2800, 2900, 3000] from by decide]
    at this
  have h12 := (List.chain'_cons.mp this).1
  omega

end ElGringo
